import Mathlib

/-
  Verification of the octo_flex scene-graph and camera library.

  Shallow embedding of the C++ sources: double arithmetic is read as exact
  arithmetic over a linear ordered field, std string ids are Lean String,
  std vectors are Lean lists, shared pointers that may be null are Option,
  and the std maps keyed by strings are association lists iterated in a
  fixed (insertion) order, which models one admissible iteration order of
  the corresponding unordered containers.
-/

set_option linter.unusedSectionVars false

namespace OctoFlex

/-- Three component vector, from struct Vec3 in def.h; the double fields
are read as exact values in a linear ordered field. -/
@[ext]
structure Vec3 (α : Type) where
  x : α
  y : α
  z : α
  deriving DecidableEq, Repr

/-- Quaternion, from struct Quaternion in def.h; field order x y z w as in
the source, the default constructor is the identity quaternion. -/
@[ext]
structure Quaternion (α : Type) where
  x : α
  y : α
  z : α
  w : α
  deriving DecidableEq, Repr

variable {α : Type} [LinearOrderedField α] [DecidableEq α]

namespace Vec3

/-- Vec3 default constructor: zero vector. -/
def zero : Vec3 α := ⟨0, 0, 0⟩

/-- Vec3 componentwise addition (source operator+). -/
def add (a b : Vec3 α) : Vec3 α := ⟨a.x + b.x, a.y + b.y, a.z + b.z⟩

/-- Vec3 componentwise subtraction (source operator-). -/
def sub (a b : Vec3 α) : Vec3 α := ⟨a.x - b.x, a.y - b.y, a.z - b.z⟩

/-- Vec3 multiplication by a scalar (source operator* with a double). -/
def scale (a : Vec3 α) (s : α) : Vec3 α := ⟨a.x * s, a.y * s, a.z * s⟩

/-- Vec3 dot product (source dot). -/
def dot (a b : Vec3 α) : α := a.x * b.x + a.y * b.y + a.z * b.z

/-- Vec3 cross product (source cross). -/
def cross (a b : Vec3 α) : Vec3 α :=
  ⟨a.y * b.z - a.z * b.y, a.z * b.x - a.x * b.z, a.x * b.y - a.y * b.x⟩

/-- Squared Euclidean length; the source length() is the square root of
this quantity. -/
def normSq (a : Vec3 α) : α := a.x * a.x + a.y * a.y + a.z * a.z

end Vec3

namespace Quaternion

/-- Quaternion default constructor: identity (0, 0, 0, 1). -/
def one : Quaternion α := ⟨0, 0, 0, 1⟩

/-- Quaternion conjugate, negating the vector part; this is both the
quaternionConjugate helper of utils and the glm conjugate. -/
def conj (q : Quaternion α) : Quaternion α := ⟨-q.x, -q.y, -q.z, q.w⟩

/-- Squared norm of a quaternion (glm dot of a quaternion with itself). -/
def normSq (q : Quaternion α) : α := q.x * q.x + q.y * q.y + q.z * q.z + q.w * q.w

end Quaternion

/-- Rotation of a vector by a quaternion exactly as the glm vec3 rotation
operator computes it: v + ((uv * w) + uuv) * 2 with uv and uuv the two
iterated cross products of the quaternion vector part with v. -/
def glmRotate (q : Quaternion α) (v : Vec3 α) : Vec3 α :=
  let u : Vec3 α := ⟨q.x, q.y, q.z⟩
  let uv := Vec3.cross u v
  let uuv := Vec3.cross u uv
  Vec3.add v (Vec3.scale (Vec3.add (Vec3.scale uv q.w) uuv) 2)

/-- Quaternion inverse exactly as glm computes it: the conjugate divided by
the squared norm. -/
def glmInverse (q : Quaternion α) : Quaternion α :=
  ⟨-q.x / Quaternion.normSq q, -q.y / Quaternion.normSq q,
   -q.z / Quaternion.normSq q, q.w / Quaternion.normSq q⟩

/-- Coordinate system type tag from coordinate_system.h. -/
inductive CoordinateSystemType where
  | Global
  | Local
  deriving DecidableEq, Repr

/-- Camera relative coordinate system: a local frame given by a position
and an orientation quaternion, from coordinate_system.h and its
implementation file. -/
structure CoordinateSystem (α : Type) where
  ctype : CoordinateSystemType
  position : Vec3 α
  orientation : Quaternion α
  objectId : String
  valid : Bool
  deriving DecidableEq, Repr

namespace CoordinateSystem

/-- CoordinateSystem localToWorld: apply rotation then translation. -/
def localToWorld (cs : CoordinateSystem α) (localPoint : Vec3 α) : Vec3 α :=
  Vec3.add cs.position (glmRotate cs.orientation localPoint)

/-- CoordinateSystem worldToLocal: inverse translation then inverse rotation. -/
def worldToLocal (cs : CoordinateSystem α) (worldPoint : Vec3 α) : Vec3 α :=
  glmRotate (glmInverse cs.orientation) (Vec3.sub worldPoint cs.position)

/-- CoordinateSystem localDirectionToWorld: rotation only. -/
def localDirectionToWorld (cs : CoordinateSystem α) (localDir : Vec3 α) : Vec3 α :=
  glmRotate cs.orientation localDir

/-- CoordinateSystem worldDirectionToLocal: inverse rotation only. -/
def worldDirectionToLocal (cs : CoordinateSystem α) (worldDir : Vec3 α) : Vec3 α :=
  glmRotate (glmInverse cs.orientation) worldDir

end CoordinateSystem

/-- For a unit quaternion the glm inverse coincides with the conjugate. -/
theorem glmInverse_eq_conj (q : Quaternion α) (h : Quaternion.normSq q = 1) :
    glmInverse q = Quaternion.conj q := by
  simp [glmInverse, Quaternion.conj, h]

/-- Rotating by a quaternion and then by its conjugate returns the input,
provided the quaternion has unit norm. -/
theorem glmRotate_conj_glmRotate (q : Quaternion α) (v : Vec3 α)
    (h : Quaternion.normSq q = 1) :
    glmRotate (Quaternion.conj q) (glmRotate q v) = v := by
  obtain ⟨qx, qy, qz, qw⟩ := q
  obtain ⟨vx, vy, vz⟩ := v
  simp only [Quaternion.normSq] at h
  simp only [glmRotate, Quaternion.conj, Vec3.cross, Vec3.add, Vec3.scale]
  ext <;> simp only
  · linear_combination (4 * ((qx * qx + qy * qy + qz * qz) * vx -
      (qx * vx + qy * vy + qz * vz) * qx)) * h
  · linear_combination (4 * ((qx * qx + qy * qy + qz * qz) * vy -
      (qx * vx + qy * vy + qz * vz) * qy)) * h
  · linear_combination (4 * ((qx * qx + qy * qy + qz * qz) * vz -
      (qx * vx + qy * vy + qz * vz) * qz)) * h

/-- Rotating by the conjugate of a quaternion and then by the quaternion
itself returns the input, provided the quaternion has unit norm. -/
theorem glmRotate_glmRotate_conj (q : Quaternion α) (v : Vec3 α)
    (h : Quaternion.normSq q = 1) :
    glmRotate q (glmRotate (Quaternion.conj q) v) = v := by
  obtain ⟨qx, qy, qz, qw⟩ := q
  obtain ⟨vx, vy, vz⟩ := v
  simp only [Quaternion.normSq] at h
  simp only [glmRotate, Quaternion.conj, Vec3.cross, Vec3.add, Vec3.scale]
  ext <;> simp only
  · linear_combination (4 * ((qx * qx + qy * qy + qz * qz) * vx -
      (qx * vx + qy * vy + qz * vz) * qx)) * h
  · linear_combination (4 * ((qx * qx + qy * qy + qz * qz) * vy -
      (qx * vx + qy * vy + qz * vz) * qy)) * h
  · linear_combination (4 * ((qx * qx + qy * qy + qz * qz) * vz -
      (qx * vx + qy * vy + qz * vz) * qz)) * h

/-- Adding a vector and then subtracting it is the identity. -/
theorem vec_add_sub_cancel (p v : Vec3 α) : Vec3.sub (Vec3.add p v) p = v := by
  obtain ⟨px, py, pz⟩ := p
  obtain ⟨vx, vy, vz⟩ := v
  simp only [Vec3.add, Vec3.sub]
  ext <;> simp only <;> ring

/-- Subtracting a vector and then adding it back is the identity. -/
theorem vec_sub_add_cancel (p v : Vec3 α) : Vec3.add p (Vec3.sub v p) = v := by
  obtain ⟨px, py, pz⟩ := p
  obtain ⟨vx, vy, vz⟩ := v
  simp only [Vec3.add, Vec3.sub]
  ext <;> simp only <;> ring

/-- C3: for every CoordinateSystem whose orientation is a unit quaternion,
localToWorld and worldToLocal are mutually inverse on points, and
localDirectionToWorld and worldDirectionToLocal are mutually inverse on
directions, in exact arithmetic. -/
theorem coordinateSystem_roundtrips (cs : CoordinateSystem α)
    (h : Quaternion.normSq cs.orientation = 1) (p d : Vec3 α) :
    cs.worldToLocal (cs.localToWorld p) = p ∧
    cs.localToWorld (cs.worldToLocal p) = p ∧
    cs.worldDirectionToLocal (cs.localDirectionToWorld d) = d ∧
    cs.localDirectionToWorld (cs.worldDirectionToLocal d) = d := by
  refine ⟨?_, ?_, ?_, ?_⟩
  · rw [CoordinateSystem.worldToLocal, CoordinateSystem.localToWorld,
      vec_add_sub_cancel, glmInverse_eq_conj cs.orientation h,
      glmRotate_conj_glmRotate cs.orientation p h]
  · rw [CoordinateSystem.localToWorld, CoordinateSystem.worldToLocal,
      glmInverse_eq_conj cs.orientation h,
      glmRotate_glmRotate_conj cs.orientation _ h, vec_sub_add_cancel]
  · rw [CoordinateSystem.worldDirectionToLocal, CoordinateSystem.localDirectionToWorld,
      glmInverse_eq_conj cs.orientation h,
      glmRotate_conj_glmRotate cs.orientation d h]
  · rw [CoordinateSystem.localDirectionToWorld, CoordinateSystem.worldDirectionToLocal,
      glmInverse_eq_conj cs.orientation h,
      glmRotate_glmRotate_conj cs.orientation d h]

/-- Witness for C3 at a concrete coordinate system over the rationals. -/
theorem coordinateSystem_roundtrips_witness :
    Quaternion.normSq (⟨(1:ℚ), 0, 0, 0⟩ : Quaternion ℚ) = 1 ∧
    (CoordinateSystem.worldToLocal
        ⟨CoordinateSystemType.Local, ⟨1, 2, 3⟩, ⟨1, 0, 0, 0⟩, "", true⟩
        (CoordinateSystem.localToWorld
          ⟨CoordinateSystemType.Local, ⟨1, 2, 3⟩, ⟨1, 0, 0, 0⟩, "", true⟩
          ⟨5, 6, 7⟩) = (⟨5, 6, 7⟩ : Vec3 ℚ)) := by
  constructor
  · norm_num [Quaternion.normSq]
  · exact (coordinateSystem_roundtrips
      ⟨CoordinateSystemType.Local, ⟨1, 2, 3⟩, ⟨1, 0, 0, 0⟩, "", true⟩
      (by norm_num [Quaternion.normSq]) ⟨5, 6, 7⟩ ⟨0, 0, 1⟩).1

/-- Camera state, from camera.h: position and direction vectors, Euler
angles, speed, optional coordinate system and roll flag. -/
structure Camera (α : Type) where
  position : Vec3 α
  front : Vec3 α
  up : Vec3 α
  right : Vec3 α
  worldUp : Vec3 α
  yaw : α
  pitch : α
  speed : α
  coordSys : Option (CoordinateSystem α)
  rollEnabled : Bool
  deriving DecidableEq, Repr

/-- Camera move from camera.cpp: accumulate the movement vector from the
three deltas (each term guarded by a zero test as in the source), and when
the accumulated vector is nonzero (the source tests that its length is
positive, which in exact arithmetic is equivalent to a positive squared
length) add it to the position scaled by the speed, routing it through the
local frame when a coordinate system is set. -/
def Camera.move (c : Camera α) (deltaForward deltaRight deltaUp : α) : Camera α :=
  let mv1 := if deltaForward = 0 then Vec3.zero
             else Vec3.add Vec3.zero (Vec3.scale c.front deltaForward)
  let mv2 := if deltaRight = 0 then mv1 else Vec3.add mv1 (Vec3.scale c.right deltaRight)
  let mv3 := if deltaUp = 0 then mv2 else Vec3.add mv2 (Vec3.scale c.up deltaUp)
  if 0 < Vec3.normSq mv3 then
    match c.coordSys with
    | some cs =>
        let localMoveVec := Vec3.scale (cs.worldDirectionToLocal mv3) c.speed
        { c with position := Vec3.add c.position (cs.localDirectionToWorld localMoveVec) }
    | none => { c with position := Vec3.add c.position (Vec3.scale mv3 c.speed) }
  else c

/-- A vector with nonpositive squared norm is the zero vector. -/
theorem vec_eq_zero_of_not_normSq_pos (v : Vec3 α) (h : ¬ 0 < Vec3.normSq v) :
    v = Vec3.zero := by
  obtain ⟨vx, vy, vz⟩ := v
  simp only [Vec3.normSq, not_lt] at h
  have hx : vx * vx = 0 := by nlinarith [mul_self_nonneg vx, mul_self_nonneg vy, mul_self_nonneg vz]
  have hy : vy * vy = 0 := by nlinarith [mul_self_nonneg vx, mul_self_nonneg vy, mul_self_nonneg vz]
  have hz : vz * vz = 0 := by nlinarith [mul_self_nonneg vx, mul_self_nonneg vy, mul_self_nonneg vz]
  have := mul_self_eq_zero.mp hx
  have := mul_self_eq_zero.mp hy
  have := mul_self_eq_zero.mp hz
  subst this
  simp_all [Vec3.zero]

/-- The guarded accumulation of the movement vector equals the full sum. -/
theorem camera_moveVec_eq (c : Camera α) (dF dR dU : α) :
    (let mv1 := if dF = 0 then Vec3.zero else Vec3.add Vec3.zero (Vec3.scale c.front dF)
     let mv2 := if dR = 0 then mv1 else Vec3.add mv1 (Vec3.scale c.right dR)
     if dU = 0 then mv2 else Vec3.add mv2 (Vec3.scale c.up dU)) =
    Vec3.add (Vec3.add (Vec3.scale c.front dF) (Vec3.scale c.right dR)) (Vec3.scale c.up dU) := by
  split_ifs with h1 h2 h3 h4 h5 h6 h7 <;>
    simp_all [Vec3.zero, Vec3.add, Vec3.scale]

/-- Rotation fixes the zero vector. -/
theorem glmRotate_zero (q : Quaternion α) : glmRotate q Vec3.zero = Vec3.zero := by
  obtain ⟨qx, qy, qz, qw⟩ := q
  simp only [glmRotate, Vec3.zero, Vec3.cross, Vec3.add, Vec3.scale]
  ext <;> simp

/-- Scaling the zero vector yields the zero vector. -/
theorem vec_scale_zero (s : α) : Vec3.scale (Vec3.zero : Vec3 α) s = Vec3.zero := by
  simp [Vec3.scale, Vec3.zero]

/-- Adding the zero vector is the identity. -/
theorem vec_add_zero (v : Vec3 α) : Vec3.add v Vec3.zero = v := by
  obtain ⟨vx, vy, vz⟩ := v
  simp [Vec3.add, Vec3.zero]

/-- C4: Camera move adds to the position the vector front scaled by the
forward delta plus right scaled by the right delta plus up scaled by the
up delta, scaled by the speed inside the attached local frame when a
coordinate system is set and directly otherwise, and leaves every other
camera field unchanged. -/
theorem camera_move_spec (c : Camera α) (dF dR dU : α) :
    Camera.move c dF dR dU =
      { c with
          position := Vec3.add c.position
            (match c.coordSys with
             | some cs => cs.localDirectionToWorld
                 (Vec3.scale (cs.worldDirectionToLocal
                   (Vec3.add (Vec3.add (Vec3.scale c.front dF) (Vec3.scale c.right dR))
                     (Vec3.scale c.up dU))) c.speed)
             | none => Vec3.scale
                 (Vec3.add (Vec3.add (Vec3.scale c.front dF) (Vec3.scale c.right dR))
                   (Vec3.scale c.up dU)) c.speed) } := by
  have hv := camera_moveVec_eq c dF dR dU
  simp only at hv
  unfold Camera.move
  simp only [hv]
  by_cases h0 : 0 < Vec3.normSq (Vec3.add (Vec3.add (Vec3.scale c.front dF)
      (Vec3.scale c.right dR)) (Vec3.scale c.up dU))
  · simp only [if_pos h0]
    cases hcs : c.coordSys <;> simp
  · have hz := vec_eq_zero_of_not_normSq_pos _ h0
    simp only [if_neg h0, hz]
    cases hcs : c.coordSys with
    | none =>
        simp only [vec_scale_zero, vec_add_zero]
        cases c
        simp_all
    | some cs =>
        simp only [CoordinateSystem.worldDirectionToLocal,
          CoordinateSystem.localDirectionToWorld, glmRotate_zero, vec_scale_zero,
          vec_add_zero]
        cases c
        simp_all

/-- Scaling commutes with rotation. -/
theorem glmRotate_scale (q : Quaternion α) (v : Vec3 α) (s : α) :
    glmRotate q (Vec3.scale v s) = Vec3.scale (glmRotate q v) s := by
  obtain ⟨qx, qy, qz, qw⟩ := q
  obtain ⟨vx, vy, vz⟩ := v
  simp only [glmRotate, Vec3.cross, Vec3.add, Vec3.scale]
  ext <;> simp only <;> ring

/-- C5: when the attached coordinate system has a unit orientation
quaternion, Camera move produces exactly the position it would produce
with no coordinate system attached: the local round trip around the speed
multiplication cancels. -/
theorem camera_move_coordSys_cancels (c : Camera α) (cs : CoordinateSystem α)
    (hcs : c.coordSys = some cs) (hq : Quaternion.normSq cs.orientation = 1)
    (dF dR dU : α) :
    (Camera.move c dF dR dU).position =
    (Camera.move { c with coordSys := none } dF dR dU).position := by
  rw [camera_move_spec, camera_move_spec]
  simp only [hcs]
  rw [CoordinateSystem.localDirectionToWorld, CoordinateSystem.worldDirectionToLocal,
    glmInverse_eq_conj cs.orientation hq, glmRotate_scale,
    glmRotate_glmRotate_conj cs.orientation _ hq]

/-- Witness for C5 at a concrete camera over the rationals. -/
theorem camera_move_coordSys_cancels_witness :
    (Camera.move
        ⟨⟨0, 0, 5⟩, ⟨0, 0, -1⟩, ⟨0, 0, 1⟩, ⟨1, 0, 0⟩, ⟨0, 0, 1⟩, -90, 0, 1,
          some ⟨CoordinateSystemType.Local, ⟨1, 2, 3⟩, ⟨1, 0, 0, 0⟩, "", true⟩, false⟩
        (1 : ℚ) 2 3).position =
    (Camera.move
        ⟨⟨0, 0, 5⟩, ⟨0, 0, -1⟩, ⟨0, 0, 1⟩, ⟨1, 0, 0⟩, ⟨0, 0, 1⟩, -90, 0, 1,
          none, false⟩
        (1 : ℚ) 2 3).position :=
  camera_move_coordSys_cancels _ _ rfl (by norm_num [Quaternion.normSq]) 1 2 3

/-- Quaternion product, from the quaternionMultiply helper in utils. -/
def quaternionMultiply (q1 q2 : Quaternion α) : Quaternion α :=
  ⟨q1.w * q2.x + q1.x * q2.w + q1.y * q2.z - q1.z * q2.y,
   q1.w * q2.y - q1.x * q2.z + q1.y * q2.w + q1.z * q2.x,
   q1.w * q2.z + q1.x * q2.y - q1.y * q2.x + q1.z * q2.w,
   q1.w * q2.w - q1.x * q2.x - q1.y * q2.y - q1.z * q2.z⟩

/-- Vector rotation by the sandwich product with the conjugate, from the
quaternionRotateVector helper in utils. -/
def quaternionRotateVector (q : Quaternion α) (v : Vec3 α) : Vec3 α :=
  let vQuaternion : Quaternion α := ⟨v.x, v.y, v.z, 0⟩
  let temp := quaternionMultiply q vQuaternion
  let rotated := quaternionMultiply temp (Quaternion.conj q)
  ⟨rotated.x, rotated.y, rotated.z⟩

/-- Shape type enum from shape.h. -/
inductive ShapeType where
  | Points
  | Lines
  | Dash
  | Loop
  | Polygon
  | TexturedQuad
  deriving DecidableEq, Repr

/-- Shape, from shape.h and its implementation: editable flag, type,
width, transparency, point buffer, per vertex color buffer and uniform
color. -/
structure Shape (α : Type) where
  editable : Bool
  shapeType : ShapeType
  width : α
  transparency : α
  points : List (Vec3 α)
  colors : List (Vec3 α)
  color : Vec3 α
  deriving DecidableEq, Repr

namespace Shape

/-- Shape constructor taking type, width and transparency; the buffers are
default constructed (empty, with a zero uniform color) and the shape is
editable. -/
def make (t : ShapeType) (w tr : α) : Shape α :=
  ⟨true, t, w, tr, [], [], Vec3.zero⟩

/-- Shape setPointsWithColor with one uniform color: also clears the per
vertex colors; guarded by the editable flag. -/
def setPointsWithColor (s : Shape α) (pts : List (Vec3 α)) (c : Vec3 α) : Shape α :=
  if s.editable then { s with points := pts, color := c, colors := [] } else s

/-- Shape setPointsWithColor with per vertex colors; guarded by the
editable flag. -/
def setPointsWithColors (s : Shape α) (pts cs : List (Vec3 α)) : Shape α :=
  if s.editable then { s with points := pts, colors := cs } else s

/-- Shape setInEditable: clears the editable flag. -/
def setInEditable (s : Shape α) : Shape α := { s with editable := false }

/-- Shape color(size_t i): the source compares i + 1 with the size of the
per vertex color vector, where i + 1 is computed in size_t arithmetic and
hence wraps modulo 2 to the 64; an out of range vector access is modeled
as none. -/
def colorAt (s : Shape α) (i : ℕ) : Option (Vec3 α) :=
  if (i + 1) % 2 ^ 64 > s.colors.length then some s.color else s.colors.get? i

/-- Shape setType; guarded by the editable flag. -/
def setType (s : Shape α) (t : ShapeType) : Shape α :=
  if s.editable then { s with shapeType := t } else s

/-- Shape setWidth; guarded by the editable flag. -/
def setWidth (s : Shape α) (w : α) : Shape α :=
  if s.editable then { s with width := w } else s

/-- Shape setTransparency; guarded by the editable flag. -/
def setTransparency (s : Shape α) (t : α) : Shape α :=
  if s.editable then { s with transparency := t } else s

/-- Shape move: translate every point; guarded by the editable flag. -/
def move (s : Shape α) (v : Vec3 α) : Shape α :=
  if s.editable then { s with points := s.points.map (fun p => Vec3.add p v) } else s

/-- Shape rotate: rotate every point with quaternionRotateVector; guarded
by the editable flag. -/
def rotate (s : Shape α) (q : Quaternion α) : Shape α :=
  if s.editable then { s with points := s.points.map (quaternionRotateVector q) } else s

/-- Shape scale: scale every point componentwise; guarded by the editable
flag. -/
def scale (s : Shape α) (sx sy sz : α) : Shape α :=
  if s.editable
  then { s with points := s.points.map (fun p => ⟨p.x * sx, p.y * sy, p.z * sz⟩) }
  else s

end Shape

/-- Object, from object.h: transform, editable flag, id, info text, detail
text, text color and the list of shapes. -/
structure Object (α : Type) where
  position : Vec3 α
  orientation : Quaternion α
  editable : Bool
  id : String
  info : String
  detail : String
  text_color : Vec3 α
  shapes : List (Shape α)
  deriving DecidableEq, Repr

namespace Object

/-- Default text color of setInfo, Vec3(0.2, 0.2, 0.2). -/
def defaultTextColor : Vec3 α := ⟨2 / 10, 2 / 10, 2 / 10⟩

/-- Object constructor: editable, stores the id, and calls setInfo with
the id and the default text color; transform fields are default
constructed. -/
def new (oid : String) : Object α :=
  ⟨Vec3.zero, Quaternion.one, true, oid, oid, "", defaultTextColor, []⟩

/-- Object setInfo: stores the info text and the text color; guarded by
the editable flag. -/
def setInfo (o : Object α) (i : String) (c : Vec3 α) : Object α :=
  if o.editable then { o with info := i, text_color := c } else o

/-- Object setInEditable: clears the editable flag of the object and of
every one of its shapes. -/
def setInEditable (o : Object α) : Object α :=
  { o with editable := false, shapes := o.shapes.map Shape.setInEditable }

/-- Object addShape: append a shape; guarded by the editable flag. -/
def addShape (o : Object α) (s : Shape α) : Object α :=
  if o.editable then { o with shapes := o.shapes ++ [s] } else o

/-- Object resetTransform; guarded by the editable flag. -/
def resetTransform (o : Object α) : Object α :=
  if o.editable then { o with position := Vec3.zero, orientation := Quaternion.one } else o

/-- Object move: move every shape and add the vector to the position;
guarded by the editable flag. -/
def move (o : Object α) (v : Vec3 α) : Object α :=
  if o.editable
  then { o with shapes := o.shapes.map (fun s => Shape.move s v),
                position := Vec3.add v o.position }
  else o

/-- Object rotate: rotate every shape, the position and the orientation;
guarded by the editable flag. -/
def rotate (o : Object α) (q : Quaternion α) : Object α :=
  if o.editable
  then { o with shapes := o.shapes.map (fun s => Shape.rotate s q),
                position := quaternionRotateVector q o.position,
                orientation := quaternionMultiply q o.orientation }
  else o

/-- Object merge: when this object is editable and the argument is a non
null editable object, steal its shapes; otherwise both objects are left
unchanged. Returns the pair of the updated receiver and argument. -/
def merge (o : Object α) (obj : Option (Object α)) : Object α × Option (Object α) :=
  match obj with
  | none => (o, none)
  | some other =>
      if o.editable && other.editable
      then ({ o with shapes := o.shapes ++ other.shapes }, some { other with shapes := [] })
      else (o, some other)

end Object

/-- Lookup in an association list, modeling find on a std map keyed by
strings. -/
def findAssoc {β : Type} (k : String) : List (String × β) → Option β
  | [] => none
  | (k1, v) :: rest => if k1 = k then some v else findAssoc k rest

/-- Insert or overwrite in an association list, modeling indexed
assignment on a std map: the first entry with the key is replaced in
place, and a missing key is appended. -/
def updateAssoc {β : Type} (k : String) (v : β) : List (String × β) → List (String × β)
  | [] => [(k, v)]
  | (k1, v1) :: rest => if k1 = k then (k1, v) :: rest else (k1, v1) :: updateAssoc k v rest

/-- Erase the first entry with the key, modeling erase on a std map. -/
def eraseAssoc {β : Type} (k : String) : List (String × β) → List (String × β)
  | [] => []
  | (k1, v1) :: rest => if k1 = k then rest else (k1, v1) :: eraseAssoc k rest

/-- Layer, from layer.h: a named map from object ids to objects, plus the
list of outdated objects, from layer.cpp. -/
structure Layer (α : Type) where
  id : String
  objects : List (String × Object α)
  outdated : List (Object α)
  deriving DecidableEq, Repr

namespace Layer

/-- Layer constructor with an id and empty maps. -/
def new (lid : String) : Layer α := ⟨lid, [], []⟩

/-- Layer findObject: map lookup, null for a missing id. -/
def findObject (l : Layer α) (oid : String) : Option (Object α) :=
  findAssoc oid l.objects

/-- Layer addObject: a null object is ignored; when an entry with the same
id holds a different object, that object is moved to the outdated list;
the map entry is then assigned. -/
def addObject (l : Layer α) (obj : Option (Object α)) : Layer α :=
  match obj with
  | none => l
  | some o =>
      let outdated1 :=
        match findAssoc o.id l.objects with
        | some old => if old ≠ o then l.outdated ++ [old] else l.outdated
        | none => l.outdated
      { l with objects := updateAssoc o.id o l.objects, outdated := outdated1 }

/-- Layer removeObject: erase the entry when present. -/
def removeObject (l : Layer α) (oid : String) : Layer α :=
  { l with objects := eraseAssoc oid l.objects }

/-- Layer clear: drop all objects. -/
def clear (l : Layer α) : Layer α := { l with objects := [] }

/-- Layer setObjects: clear the map and insert every non null object of
the list keyed by its id. -/
def setObjects (l : Layer α) (objs : List (Option (Object α))) : Layer α :=
  let newObjects :=
    objs.foldl
      (fun acc o =>
        match o with
        | none => acc
        | some ob => updateAssoc ob.id ob acc) []
  { l with objects := newObjects }

end Layer

/-- ObjectManager, from object_manager.h: the map from layer ids to
layers. -/
structure ObjectManager (α : Type) where
  layers : List (String × Layer α)
  deriving DecidableEq, Repr

/-- Apply an update to the layer with the given id, appending a fresh
layer first when the id is missing; this models findOrAddLayer followed by
a mutation of the shared layer. -/
def updateLayersWith (lid : String) (f : Layer α → Layer α) :
    List (String × Layer α) → List (String × Layer α)
  | [] => [(lid, f (Layer.new lid))]
  | (k, lay) :: rest =>
      if k = lid then (k, f lay) :: rest else (k, lay) :: updateLayersWith lid f rest

/-- Search the layers in iteration order for the first one containing the
object id, from ObjectManager findObject. -/
def findObjectInLayers (oid : String) : List (String × Layer α) → String × Option (Object α)
  | [] => ("", none)
  | (lid, lay) :: rest =>
      match Layer.findObject lay oid with
      | some o => (lid, some o)
      | none => findObjectInLayers oid rest

namespace ObjectManager

/-- Default constructed manager with no layers. -/
def empty : ObjectManager α := ⟨[]⟩

/-- ObjectManager submit: a null object is ignored; otherwise the object
is made ineditable and added to the layer with the given id, creating the
layer when missing. -/
def submit (m : ObjectManager α) (obj : Option (Object α)) (lid : String) :
    ObjectManager α :=
  match obj with
  | none => m
  | some o =>
      ⟨updateLayersWith lid (fun lay => lay.addObject (some o.setInEditable)) m.layers⟩

/-- ObjectManager submitLayer: make every non null object ineditable and
replace the objects of the layer with them, creating the layer when
missing. -/
def submitLayer (m : ObjectManager α) (objs : List (Option (Object α))) (lid : String) :
    ObjectManager α :=
  ⟨updateLayersWith lid
    (fun lay => lay.setObjects (objs.map (fun o => o.map Object.setInEditable))) m.layers⟩

/-- ObjectManager findObject: scan the layers for the id, returning the
layer id and object, or an empty id and null. -/
def findObject (m : ObjectManager α) (oid : String) : String × Option (Object α) :=
  findObjectInLayers oid m.layers

/-- ObjectManager findLayer: lookup by layer id. -/
def findLayer (m : ObjectManager α) (lid : String) : Option (Layer α) :=
  findAssoc lid m.layers

end ObjectManager

section AssocLemmas

variable {β : Type}

/-- Lookup after inserting the same key finds the inserted value. -/
theorem findAssoc_updateAssoc_self (k : String) (v : β) (xs : List (String × β)) :
    findAssoc k (updateAssoc k v xs) = some v := by
  induction xs with
  | nil => simp [updateAssoc, findAssoc]
  | cons hd tl ih =>
      obtain ⟨k1, v1⟩ := hd
      by_cases h : k1 = k
      · simp [updateAssoc, findAssoc, h]
      · simp [updateAssoc, findAssoc, h, ih]

/-- Lookup of a different key is unchanged by an insertion. -/
theorem findAssoc_updateAssoc_ne (s k : String) (v : β) (xs : List (String × β))
    (h : s ≠ k) : findAssoc s (updateAssoc k v xs) = findAssoc s xs := by
  have hks : ¬ k = s := fun hh => h hh.symm
  induction xs with
  | nil =>
      simp only [updateAssoc, findAssoc]
      rw [if_neg hks]
  | cons hd tl ih =>
      obtain ⟨k1, v1⟩ := hd
      simp only [updateAssoc]
      by_cases h1 : k1 = k
      · rw [if_pos h1]
        simp only [findAssoc]
        rw [if_neg (h1 ▸ hks), if_neg (h1 ▸ hks)]
      · rw [if_neg h1]
        simp only [findAssoc]
        by_cases h2 : k1 = s
        · rw [if_pos h2, if_pos h2]
        · rw [if_neg h2, if_neg h2, ih]

/-- A key that occurs in no entry is not found. -/
theorem findAssoc_eq_none (k : String) (xs : List (String × β))
    (h : k ∉ xs.map Prod.fst) : findAssoc k xs = none := by
  induction xs with
  | nil => simp [findAssoc]
  | cons hd tl ih =>
      obtain ⟨k1, v1⟩ := hd
      simp only [List.map_cons, List.mem_cons] at h
      push_neg at h
      simp only [findAssoc]
      rw [if_neg (fun hh => h.1 hh.symm), ih h.2]

/-- Erasing an absent key leaves the list unchanged. -/
theorem eraseAssoc_of_findAssoc_none (k : String) (xs : List (String × β))
    (h : findAssoc k xs = none) : eraseAssoc k xs = xs := by
  induction xs with
  | nil => simp [eraseAssoc]
  | cons hd tl ih =>
      obtain ⟨k1, v1⟩ := hd
      simp only [findAssoc] at h
      by_cases h1 : k1 = k
      · simp [h1] at h
      · simp [eraseAssoc, h1, ih (by simpa [h1] using h)]

/-- After erasing a key from a list with pairwise distinct keys, the key
is no longer found. -/
theorem findAssoc_eraseAssoc_self (k : String) (xs : List (String × β))
    (hnd : (xs.map Prod.fst).Nodup) : findAssoc k (eraseAssoc k xs) = none := by
  induction xs with
  | nil => simp [eraseAssoc, findAssoc]
  | cons hd tl ih =>
      obtain ⟨k1, v1⟩ := hd
      simp only [List.map_cons, List.nodup_cons] at hnd
      by_cases h1 : k1 = k
      · subst h1
        simp only [eraseAssoc, if_pos rfl]
        exact findAssoc_eq_none k1 tl hnd.1
      · simp [eraseAssoc, findAssoc, h1, ih hnd.2]

end AssocLemmas

/-- Adding an object to a layer makes it found under its id. -/
theorem layer_addObject_find_self (l : Layer α) (o : Object α) :
    (l.addObject (some o)).findObject o.id = some o := by
  unfold Layer.addObject Layer.findObject
  cases h : findAssoc o.id l.objects with
  | none => simp [findAssoc_updateAssoc_self]
  | some old =>
      by_cases he : old ≠ o <;> simp [he, findAssoc_updateAssoc_self]

/-- Adding an object does not change the lookup of other ids. -/
theorem layer_addObject_find_ne (l : Layer α) (o : Object α) (s : String)
    (h : s ≠ o.id) :
    (l.addObject (some o)).findObject s = l.findObject s := by
  unfold Layer.addObject Layer.findObject
  cases hh : findAssoc o.id l.objects with
  | none => simp [findAssoc_updateAssoc_ne s o.id o l.objects h]
  | some old =>
      by_cases he : old ≠ o <;> simp [he, findAssoc_updateAssoc_ne s o.id o l.objects h]

/-- C9: Layer operations behave as a map with null guards: a non null
added object is found under its id; a fresh layer finds nothing and adds
of other ids preserve absence, as does removal; removing an absent id
leaves the layer unchanged; and adding null leaves the layer unchanged. -/
theorem layer_operations_spec :
    (∀ (l : Layer α) (o : Object α), (l.addObject (some o)).findObject o.id = some o) ∧
    (∀ lid s : String, (Layer.new lid : Layer α).findObject s = none) ∧
    (∀ (l : Layer α) (o : Object α) (s : String), s ≠ o.id →
       (l.addObject (some o)).findObject s = l.findObject s) ∧
    (∀ (l : Layer α) (s : String), (l.objects.map Prod.fst).Nodup →
       (l.removeObject s).findObject s = none) ∧
    (∀ (l : Layer α) (s : String), l.findObject s = none → l.removeObject s = l) ∧
    (∀ l : Layer α, l.addObject none = l) := by
  refine ⟨layer_addObject_find_self, ?_, layer_addObject_find_ne, ?_, ?_, ?_⟩
  · intro lid s
    simp [Layer.new, Layer.findObject, findAssoc]
  · intro l s hnd
    exact findAssoc_eraseAssoc_self s l.objects hnd
  · intro l s h
    unfold Layer.removeObject
    rw [eraseAssoc_of_findAssoc_none s l.objects h]
  · intro l
    rfl

/-- Witness for C9 on a concrete layer over the rationals. -/
theorem layer_operations_spec_witness :
    (((Layer.new "L" : Layer ℚ).objects.map Prod.fst).Nodup ∧
      ((Layer.new "L" : Layer ℚ).removeObject "a").findObject "a" = none) ∧
    ((Layer.new "L" : Layer ℚ).findObject "a" = none ∧
      (Layer.new "L" : Layer ℚ).removeObject "a" = Layer.new "L") :=
  ⟨⟨by decide, layer_operations_spec.2.2.2.1 (Layer.new "L") "a" (by decide)⟩,
   ⟨layer_operations_spec.2.1 "L" "a",
    layer_operations_spec.2.2.2.2.1 (Layer.new "L") "a" (by decide)⟩⟩

/-- The update touches the layer with the requested id: some entry of the
result carries that id and is the image of a layer under the update. -/
theorem updateLayersWith_mem (lid : String) (f : Layer α → Layer α) :
    ∀ ls : List (String × Layer α),
      ∃ lay, (lid, lay) ∈ updateLayersWith lid f ls ∧ ∃ l0, lay = f l0 := by
  intro ls
  induction ls with
  | nil => exact ⟨f (Layer.new lid), by simp [updateLayersWith], Layer.new lid, rfl⟩
  | cons hd tl ih =>
      obtain ⟨k, lay⟩ := hd
      by_cases h : k = lid
      · subst h
        exact ⟨f lay, by simp [updateLayersWith], lay, rfl⟩
      · obtain ⟨lay1, hmem, l0, hl0⟩ := ih
        exact ⟨lay1, by simp [updateLayersWith, h, hmem], l0, hl0⟩

/-- When some layer contains the id, the scan returns the first such layer
with its object, and that layer is among the scanned entries. -/
theorem findObjectInLayers_found (oid : String) :
    ∀ ls : List (String × Layer α),
      (∃ e ∈ ls, (Layer.findObject e.2 oid).isSome) →
      ∃ L1 o1, findObjectInLayers oid ls = (L1, some o1) ∧
        ∃ lay, (L1, lay) ∈ ls ∧ Layer.findObject lay oid = some o1 := by
  intro ls hex
  induction ls with
  | nil => simp at hex
  | cons hd tl ih =>
      obtain ⟨k, lay⟩ := hd
      cases h : Layer.findObject lay oid with
      | some o =>
          exact ⟨k, o, by simp [findObjectInLayers, h], lay, by simp, h⟩
      | none =>
          obtain ⟨e, he, hsome⟩ := hex
          rcases List.mem_cons.mp he with heq | htl
          · rw [heq] at hsome
            simp only [h] at hsome
            simp at hsome
          · obtain ⟨L1, o1, hfind, lay1, hmem, hl1⟩ := ih ⟨e, htl, hsome⟩
            exact ⟨L1, o1, by simp [findObjectInLayers, h, hfind],
              lay1, List.mem_cons_of_mem _ hmem, hl1⟩

/-- When no layer other than the target contains the id and the target
update makes it found, the scan after the update returns the target layer
id with the updated value. -/
theorem findObjectInLayers_updateLayersWith (oid L : String) (ov : Object α)
    (g : Layer α → Layer α) (hg : ∀ lay, Layer.findObject (g lay) oid = some ov) :
    ∀ ls : List (String × Layer α),
      (∀ e ∈ ls, e.1 ≠ L → Layer.findObject e.2 oid = none) →
      findObjectInLayers oid (updateLayersWith L g ls) = (L, some ov) := by
  intro ls hnone
  induction ls with
  | nil => simp [updateLayersWith, findObjectInLayers, hg]
  | cons hd tl ih =>
      obtain ⟨k, lay⟩ := hd
      by_cases h : k = L
      · subst h
        simp [updateLayersWith, findObjectInLayers, hg]
      · have hk : Layer.findObject lay oid = none := hnone (k, lay) (by simp) h
        have := ih (fun e he hne => hnone e (List.mem_cons_of_mem _ he) hne)
        simp [updateLayersWith, findObjectInLayers, h, hk, this]

/-- When no layer contains the id, the scan returns the empty id and null. -/
theorem findObjectInLayers_none (oid : String) :
    ∀ ls : List (String × Layer α),
      (∀ e ∈ ls, Layer.findObject e.2 oid = none) →
      findObjectInLayers oid ls = ("", none) := by
  intro ls hnone
  induction ls with
  | nil => rfl
  | cons hd tl ih =>
      obtain ⟨k, lay⟩ := hd
      have hk : Layer.findObject lay oid = none := hnone (k, lay) (by simp)
      simp [findObjectInLayers, hk,
        ih (fun e he => hnone e (List.mem_cons_of_mem _ he))]

/-- Making an object ineditable does not change its id. -/
theorem object_setInEditable_id (o : Object α) : (o.setInEditable).id = o.id := rfl

/-- C1 amended: after submit of a non null object, findObject on its id
returns some layer id together with the object stored in that layer under
the id (which is the submitted object made ineditable exactly when the id
occurs in no other layer, in which case the layer is the submitted one);
findObject of an id contained in no layer returns the empty string and
null; and submitting null leaves the manager unchanged. -/
theorem objectManager_submit_findObject (m : ObjectManager α) (o : Object α)
    (L s : String) :
    (∃ L1 o1, (m.submit (some o) L).findObject o.id = (L1, some o1) ∧
       ∃ lay, (L1, lay) ∈ (m.submit (some o) L).layers ∧
         lay.findObject o.id = some o1) ∧
    ((∀ e ∈ m.layers, e.1 ≠ L → Layer.findObject e.2 o.id = none) →
       (m.submit (some o) L).findObject o.id = (L, some o.setInEditable)) ∧
    ((∀ e ∈ m.layers, Layer.findObject e.2 s = none) →
       m.findObject s = ("", none)) ∧
    m.submit none L = m := by
  have hg : ∀ lay : Layer α,
      Layer.findObject (lay.addObject (some o.setInEditable)) o.id = some o.setInEditable := by
    intro lay
    have := layer_addObject_find_self lay o.setInEditable
    rwa [object_setInEditable_id] at this
  refine ⟨?_, ?_, ?_, rfl⟩
  · obtain ⟨lay, hmem, l0, hl0⟩ :=
      updateLayersWith_mem L (fun lay => lay.addObject (some o.setInEditable)) m.layers
    have hsome : (Layer.findObject lay o.id).isSome := by
      rw [hl0, hg l0]
      rfl
    obtain ⟨L1, o1, hfind, lay1, hmem1, hl1⟩ :=
      findObjectInLayers_found o.id _ ⟨(L, lay), hmem, hsome⟩
    exact ⟨L1, o1, hfind, lay1, hmem1, hl1⟩
  · intro hnone
    exact findObjectInLayers_updateLayersWith o.id L o.setInEditable _ hg m.layers hnone
  · intro hnone
    exact findObjectInLayers_none s m.layers hnone

/-- Counterexample to C1 as stated: submit an object under id a to layer
L1, then submit a different object with the same id a to layer L2; the
manager then finds under a the object of layer L1, not the most recently
submitted one, so findObject after submit of o need not return o when the
id occurs in another layer. -/
theorem objectManager_submit_findObject_counterexample :
    (((ObjectManager.empty.submit
          (some ⟨Vec3.zero, Quaternion.one, true, "a", "first", "", Vec3.zero, []⟩) "L1").submit
          (some ⟨Vec3.zero, Quaternion.one, true, "a", "second", "", Vec3.zero, []⟩)
          "L2").findObject "a" =
        ("L1", some (Object.setInEditable
          (⟨Vec3.zero, Quaternion.one, true, "a", "first", "", Vec3.zero, []⟩ : Object ℚ)))) ∧
    Object.setInEditable
        (⟨Vec3.zero, Quaternion.one, true, "a", "first", "", Vec3.zero, []⟩ : Object ℚ) ≠
      Object.setInEditable
        (⟨Vec3.zero, Quaternion.one, true, "a", "second", "", Vec3.zero, []⟩ : Object ℚ) := by
  constructor
  · rfl
  · decide

/-- Witness for C1 on a concrete manager over the rationals. -/
theorem objectManager_submit_findObject_witness :
    ((ObjectManager.empty.submit (some (Object.new "a" : Object ℚ)) "L").findObject "a" =
        ("L", some (Object.new "a" : Object ℚ).setInEditable)) ∧
    ((ObjectManager.empty : ObjectManager ℚ).findObject "missing" = ("", none)) ∧
    (ObjectManager.empty.submit none "L" = (ObjectManager.empty : ObjectManager ℚ)) :=
  ⟨(objectManager_submit_findObject ObjectManager.empty (Object.new "a") "L" "x").2.1
      (by simp [ObjectManager.empty]),
   (objectManager_submit_findObject ObjectManager.empty (Object.new "a") "L" "missing").2.2.1
      (by simp [ObjectManager.empty]),
   (objectManager_submit_findObject ObjectManager.empty (Object.new "a") "L" "x").2.2.2⟩

/-- C10 counterexample: at the largest size_t index the comparison in the
source wraps to zero, the uniform color branch is not taken, and the
vector access is out of range (modeled as none), so color(i) is not total
at i equal to SIZE_MAX. -/
theorem shape_colorAt_counterexample :
    Shape.colorAt (⟨true, ShapeType.Points, 1, 1, [], [], ⟨1, 2, 3⟩⟩ : Shape ℚ)
        (2 ^ 64 - 1) ≠
      some ⟨1, 2, 3⟩ := by
  decide

/-- C10 amended: for every index whose successor does not wrap in size_t
arithmetic, color(i) is total and returns the indexed per vertex color
when the index is in range and the uniform color otherwise. -/
theorem shape_colorAt_total_below_wrap (s : Shape α) (i : ℕ) (h : i + 1 < 2 ^ 64) :
    (i < s.colors.length → Shape.colorAt s i = s.colors.get? i ∧
        (s.colors.get? i).isSome) ∧
    (s.colors.length ≤ i → Shape.colorAt s i = some s.color) := by
  unfold Shape.colorAt
  rw [Nat.mod_eq_of_lt h]
  constructor
  · intro hlt
    constructor
    · rw [if_neg (by omega)]
    · simp [List.getElem?_eq_getElem hlt]
  · intro hge
    rw [if_pos (by omega)]

/-- Witness for C10 on a concrete shape over the rationals. -/
theorem shape_colorAt_total_below_wrap_witness :
    (0 + 1 < 2 ^ 64 ∧ (0 : ℕ) < 1 ∧
      Shape.colorAt (⟨true, ShapeType.Points, 1, 1, [], [⟨5, 5, 5⟩], ⟨9, 9, 9⟩⟩ : Shape ℚ) 0 =
        [(⟨5, 5, 5⟩ : Vec3 ℚ)].get? 0) ∧
    (1 + 1 < 2 ^ 64 ∧
      Shape.colorAt (⟨true, ShapeType.Points, 1, 1, [], [⟨5, 5, 5⟩], ⟨9, 9, 9⟩⟩ : Shape ℚ) 1 =
        some ⟨9, 9, 9⟩) :=
  ⟨⟨by decide, by decide,
    ((shape_colorAt_total_below_wrap
        (⟨true, ShapeType.Points, 1, 1, [], [⟨5, 5, 5⟩], ⟨9, 9, 9⟩⟩ : Shape ℚ) 0
        (by decide)).1 (by decide)).1⟩,
   ⟨by decide,
    (shape_colorAt_total_below_wrap
        (⟨true, ShapeType.Points, 1, 1, [], [⟨5, 5, 5⟩], ⟨9, 9, 9⟩⟩ : Shape ℚ) 1
        (by decide)).2 (by decide)⟩⟩

/-- The public mutating operations of Shape, reified for quantifying over
call sequences. -/
inductive ShapeOp (α : Type) where
  | setPointsWithColor (pts : List (Vec3 α)) (c : Vec3 α)
  | setPointsWithColors (pts cs : List (Vec3 α))
  | setType (t : ShapeType)
  | setWidth (w : α)
  | setTransparency (t : α)
  | move (v : Vec3 α)
  | rotate (q : Quaternion α)
  | scale (sx sy sz : α)
  | setInEditable

/-- Apply a reified Shape operation. -/
def applyShapeOp (s : Shape α) : ShapeOp α → Shape α
  | ShapeOp.setPointsWithColor pts c => s.setPointsWithColor pts c
  | ShapeOp.setPointsWithColors pts cs => s.setPointsWithColors pts cs
  | ShapeOp.setType t => s.setType t
  | ShapeOp.setWidth w => s.setWidth w
  | ShapeOp.setTransparency t => s.setTransparency t
  | ShapeOp.move v => s.move v
  | ShapeOp.rotate q => s.rotate q
  | ShapeOp.scale sx sy sz => s.scale sx sy sz
  | ShapeOp.setInEditable => s.setInEditable

/-- The public mutating operations of Object, reified for quantifying over
call sequences. -/
inductive ObjectOp (α : Type) where
  | move (v : Vec3 α)
  | rotate (q : Quaternion α)
  | addShape (s : Shape α)
  | setInfo (i : String) (c : Vec3 α)
  | resetTransform
  | merge (other : Option (Object α))
  | setInEditable

/-- Apply a reified Object operation (for merge, the state of the
receiver). -/
def applyObjectOp (o : Object α) : ObjectOp α → Object α
  | ObjectOp.move v => o.move v
  | ObjectOp.rotate q => o.rotate q
  | ObjectOp.addShape s => o.addShape s
  | ObjectOp.setInfo i c => o.setInfo i c
  | ObjectOp.resetTransform => o.resetTransform
  | ObjectOp.merge other => (o.merge other).1
  | ObjectOp.setInEditable => o.setInEditable

/-- Making an ineditable shape ineditable again changes nothing. -/
theorem shape_setInEditable_of_ineditable (s : Shape α) (h : s.editable = false) :
    Shape.setInEditable s = s := by
  obtain ⟨e, t, w, tr, pts, cls, c⟩ := s
  simp only at h
  subst h
  simp [Shape.setInEditable]

/-- Marking a list of already ineditable shapes is the identity. -/
theorem map_setInEditable_of_ineditable (ss : List (Shape α))
    (h : ∀ s ∈ ss, s.editable = false) : ss.map Shape.setInEditable = ss := by
  induction ss with
  | nil => rfl
  | cons hd tl ih =>
      rw [List.map_cons, shape_setInEditable_of_ineditable hd (h hd (by simp)),
        ih (fun s hs => h s (List.mem_cons_of_mem _ hs))]

/-- Every Shape operation fixes an ineditable shape. -/
theorem applyShapeOp_ineditable (s : Shape α) (h : s.editable = false) (op : ShapeOp α) :
    applyShapeOp s op = s := by
  cases op with
  | setInEditable => exact shape_setInEditable_of_ineditable s h
  | _ =>
      simp [applyShapeOp, Shape.setPointsWithColor, Shape.setPointsWithColors,
        Shape.setType, Shape.setWidth, Shape.setTransparency, Shape.move,
        Shape.rotate, Shape.scale, h]

/-- Every Object operation fixes an object that is ineditable and whose
shapes are all ineditable. -/
theorem applyObjectOp_ineditable (o : Object α) (h : o.editable = false)
    (hs : ∀ s ∈ o.shapes, s.editable = false) (op : ObjectOp α) :
    applyObjectOp o op = o := by
  cases op with
  | setInEditable =>
      show Object.setInEditable o = o
      unfold Object.setInEditable
      rw [map_setInEditable_of_ineditable o.shapes hs]
      obtain ⟨p, q, e, i, inf, d, tc, ss⟩ := o
      simp only at h
      subst h
      rfl
  | merge other =>
      cases other with
      | none => rfl
      | some oth =>
          show (Object.merge o (some oth)).1 = o
          simp [Object.merge, h]
  | _ =>
      simp [applyObjectOp, Object.move, Object.rotate, Object.addShape,
        Object.setInfo, Object.resetTransform, h]

/-- The first component of merge keeps the editable flag. -/
theorem object_merge_fst_editable (o : Object α) (other : Option (Object α)) :
    ((o.merge other).1).editable = o.editable := by
  cases other with
  | none => rfl
  | some oth =>
      simp only [Object.merge]
      split_ifs <;> rfl

/-- No Object operation turns an ineditable object editable. -/
theorem applyObjectOp_editable_mono (o : Object α) (op : ObjectOp α)
    (h : (applyObjectOp o op).editable = true) : o.editable = true := by
  cases op with
  | setInEditable => simp [applyObjectOp, Object.setInEditable] at h
  | merge other => rwa [show applyObjectOp o (ObjectOp.merge other) = (o.merge other).1 from rfl,
      object_merge_fst_editable] at h
  | _ =>
      by_cases ho : o.editable = true
      · exact ho
      · have hne : o.editable = false := by simp_all
        simp [applyObjectOp, Object.move, Object.rotate, Object.addShape,
          Object.setInfo, Object.resetTransform, hne] at h

/-- No Shape operation turns an ineditable shape editable. -/
theorem applyShapeOp_editable_mono (s : Shape α) (op : ShapeOp α)
    (h : (applyShapeOp s op).editable = true) : s.editable = true := by
  cases op with
  | setInEditable => simp [applyShapeOp, Shape.setInEditable] at h
  | _ =>
      by_cases hs : s.editable = true
      · exact hs
      · have hne : s.editable = false := by simp_all
        simp [applyShapeOp, Shape.setPointsWithColor, Shape.setPointsWithColors,
          Shape.setType, Shape.setWidth, Shape.setTransparency, Shape.move,
          Shape.rotate, Shape.scale, hne] at h

/-- A marked object is ineditable and so are all of its shapes. -/
theorem object_setInEditable_marked (o : Object α) :
    o.setInEditable.editable = false ∧ ∀ s ∈ o.setInEditable.shapes, s.editable = false := by
  refine ⟨rfl, ?_⟩
  intro s hmem
  simp only [Object.setInEditable, List.mem_map] at hmem
  obtain ⟨s0, _, hs0⟩ := hmem
  rw [← hs0]
  rfl

/-- Every entry of an insertion is either the inserted value or an entry
of the original list. -/
theorem mem_updateAssoc {β : Type} (k : String) (v : β) (xs : List (String × β))
    (e : String × β) (h : e ∈ updateAssoc k v xs) : e.2 = v ∨ e ∈ xs := by
  induction xs with
  | nil =>
      simp only [updateAssoc, List.mem_singleton] at h
      exact Or.inl (by rw [h])
  | cons hd tl ih =>
      obtain ⟨k1, v1⟩ := hd
      simp only [updateAssoc] at h
      by_cases h1 : k1 = k
      · rw [if_pos h1] at h
        rcases List.mem_cons.mp h with heq | htl
        · exact Or.inl (by rw [heq])
        · exact Or.inr (List.mem_cons_of_mem _ htl)
      · rw [if_neg h1] at h
        rcases List.mem_cons.mp h with heq | htl
        · exact Or.inr (by simp [heq])
        · rcases ih htl with hv | hmem
          · exact Or.inl hv
          · exact Or.inr (List.mem_cons_of_mem _ hmem)

/-- Every value stored by the setObjects fold satisfies any property that
holds of the accumulator values and of the inserted objects. -/
theorem setObjects_foldl_prop (P : Object α → Prop) :
    ∀ (objs : List (Option (Object α))) (acc : List (String × Object α)),
      (∀ e ∈ acc, P e.2) →
      (∀ ob : Object α, some ob ∈ objs → P ob) →
      ∀ e ∈ objs.foldl
        (fun acc o =>
          match o with
          | none => acc
          | some ob => updateAssoc ob.id ob acc) acc, P e.2 := by
  intro objs
  induction objs with
  | nil =>
      intro acc hacc _ e he
      exact hacc e he
  | cons hd tl ih =>
      intro acc hacc hins e he
      cases hd with
      | none =>
          exact ih acc hacc (fun ob hob => hins ob (List.mem_cons_of_mem _ hob)) e he
      | some ob =>
          refine ih (updateAssoc ob.id ob acc) ?_
            (fun ob1 hob1 => hins ob1 (List.mem_cons_of_mem _ hob1)) e he
          intro e1 he1
          rcases mem_updateAssoc ob.id ob acc e1 he1 with hv | hmem
          · rw [hv]
            exact hins ob (by simp)
          · exact hacc e1 hmem

/-- C6: after submit (or submitLayer) the stored object and all its shapes
are ineditable; every sequence of the listed Object mutators fixes an
ineditable object with ineditable shapes, and every sequence of Shape
mutators fixes an ineditable shape; merge on an ineditable receiver also
leaves the argument unchanged; and no operation ever turns an ineditable
object or shape editable again. -/
theorem object_ineditable_permanent :
    (∀ o : Object α, o.editable = false → (∀ s ∈ o.shapes, s.editable = false) →
       ∀ ops : List (ObjectOp α), ops.foldl applyObjectOp o = o) ∧
    (∀ s : Shape α, s.editable = false →
       ∀ ops : List (ShapeOp α), ops.foldl applyShapeOp s = s) ∧
    (∀ (o : Object α) (op : ObjectOp α),
       (applyObjectOp o op).editable = true → o.editable = true) ∧
    (∀ (s : Shape α) (op : ShapeOp α),
       (applyShapeOp s op).editable = true → s.editable = true) ∧
    (∀ o other : Object α, o.editable = false →
       o.merge (some other) = (o, some other)) ∧
    (∀ o : Object α, o.setInEditable.editable = false ∧
       ∀ s ∈ o.setInEditable.shapes, s.editable = false) ∧
    (∀ (m : ObjectManager α) (o : Object α) (L : String),
       ∃ lay, (L, lay) ∈ (m.submit (some o) L).layers ∧
         lay.findObject o.id = some o.setInEditable) ∧
    (∀ (m : ObjectManager α) (objs : List (Option (Object α))) (L : String),
       ∃ lay, (L, lay) ∈ (m.submitLayer objs L).layers ∧
         ∀ e ∈ lay.objects, e.2.editable = false ∧
           ∀ s ∈ e.2.shapes, s.editable = false) := by
  refine ⟨?_, ?_, applyObjectOp_editable_mono, applyShapeOp_editable_mono, ?_,
    object_setInEditable_marked, ?_, ?_⟩
  · intro o h hs ops
    induction ops with
    | nil => rfl
    | cons op rest ih =>
        rw [List.foldl_cons, applyObjectOp_ineditable o h hs op, ih]
  · intro s h ops
    induction ops with
    | nil => rfl
    | cons op rest ih =>
        rw [List.foldl_cons, applyShapeOp_ineditable s h op, ih]
  · intro o other h
    simp [Object.merge, h]
  · intro m o L
    obtain ⟨lay, hmem, l0, hl0⟩ :=
      updateLayersWith_mem L (fun lay => lay.addObject (some o.setInEditable)) m.layers
    refine ⟨lay, hmem, ?_⟩
    rw [hl0]
    have := layer_addObject_find_self l0 o.setInEditable
    rwa [object_setInEditable_id] at this
  · intro m objs L
    obtain ⟨lay, hmem, l0, hl0⟩ :=
      updateLayersWith_mem L
        (fun lay => lay.setObjects (objs.map (fun o => o.map Object.setInEditable)))
        m.layers
    refine ⟨lay, hmem, ?_⟩
    intro e he
    rw [hl0] at he
    simp only [Layer.setObjects] at he
    refine setObjects_foldl_prop
      (fun ob => ob.editable = false ∧ ∀ s ∈ ob.shapes, s.editable = false)
      (objs.map (fun o => o.map Object.setInEditable)) [] (by simp) ?_ e he
    intro ob hob
    simp only [List.mem_map] at hob
    obtain ⟨o0, _, ho0⟩ := hob
    cases o0 with
    | none => simp at ho0
    | some o1 =>
        have ho1 : o1.setInEditable = ob := by simpa using ho0
        have := object_setInEditable_marked o1
        rw [← ho1]
        exact this

/-- Witness for C6 on concrete data over the rationals. -/
theorem object_ineditable_permanent_witness :
    ((Object.new "a" : Object ℚ).setInEditable.editable = false ∧
      (List.foldl applyObjectOp (Object.new "a" : Object ℚ).setInEditable
          [ObjectOp.move ⟨1, 2, 3⟩, ObjectOp.addShape (Shape.make ShapeType.Lines 1 1),
           ObjectOp.setInfo "changed" ⟨0, 0, 0⟩, ObjectOp.resetTransform] =
        (Object.new "a" : Object ℚ).setInEditable)) ∧
    (List.foldl applyShapeOp ((Shape.make ShapeType.Lines 1 1 : Shape ℚ).setInEditable)
        [ShapeOp.move ⟨1, 1, 1⟩, ShapeOp.setWidth 7, ShapeOp.setTransparency 0] =
      (Shape.make ShapeType.Lines 1 1 : Shape ℚ).setInEditable) :=
  ⟨⟨(object_ineditable_permanent.2.2.2.2.2.1 (Object.new "a" : Object ℚ)).1,
    object_ineditable_permanent.1 (Object.new "a" : Object ℚ).setInEditable
      (by decide)
      (fun s hs => ((object_ineditable_permanent.2.2.2.2.2.1
        (Object.new "a" : Object ℚ)).2) s hs) _⟩,
   object_ineditable_permanent.2.1 ((Shape.make ShapeType.Lines 1 1 : Shape ℚ).setInEditable)
     (by decide) _⟩

/-- The inner loop of the selection pass: record one consecutive name per
object id of a kept layer, starting at the given name counter. -/
def assignObjects (k : ℕ) : List String → List (ℕ × String)
  | [] => []
  | oid :: rest => (k, oid) :: assignObjects (k + 1) rest

/-- The layer loop of handleSelectionWithGLSelect: skip layers in the
invisible set or in the unselectable set, and give the objects of the
other layers consecutive names from the running counter. Layers are given
as id and object id list in iteration order; the two sets are given as
membership lists. -/
def assignNamesFrom (k : ℕ) (unvis unsel : List String) :
    List (String × List String) → List (ℕ × String)
  | [] => []
  | (lid, oids) :: rest =>
      if lid ∈ unvis then assignNamesFrom k unvis unsel rest
      else if lid ∈ unsel then assignNamesFrom k unvis unsel rest
      else assignObjects k oids ++ assignNamesFrom (k + oids.length) unvis unsel rest

/-- The recorded name to object id map of one selection pass: the counter
starts at 1 after the map is cleared. -/
def handleSelectionNames (layers : List (String × List String))
    (unvis unsel : List String) : List (ℕ × String) :=
  assignNamesFrom 1 unvis unsel layers

/-- The object ids of the layers that are neither invisible nor
unselectable, in traversal order. -/
def selectedIds (layers : List (String × List String)) (unvis unsel : List String) :
    List String :=
  layers.flatMap (fun e => if e.1 ∈ unvis ∨ e.1 ∈ unsel then [] else e.2)

/-- The inner loop yields the ids zipped with consecutive names. -/
theorem assignObjects_eq_zip (oids : List String) :
    ∀ k, assignObjects k oids = List.zip (List.range' k oids.length) oids := by
  induction oids with
  | nil => intro k; rfl
  | cons hd tl ih =>
      intro k
      rw [assignObjects, List.length_cons, List.range'_succ, List.zip_cons_cons, ih (k + 1)]

/-- The layer loop yields the selected ids zipped with consecutive names
from any starting counter. -/
theorem assignNamesFrom_eq_zip (unvis unsel : List String) :
    ∀ (layers : List (String × List String)) (k : ℕ),
      assignNamesFrom k unvis unsel layers =
        List.zip (List.range' k (selectedIds layers unvis unsel).length)
          (selectedIds layers unvis unsel) := by
  intro layers
  induction layers with
  | nil => intro k; rfl
  | cons hd tl ih =>
      intro k
      obtain ⟨lid, oids⟩ := hd
      by_cases h1 : lid ∈ unvis
      · simp [assignNamesFrom, selectedIds, h1, ih k]
      · by_cases h2 : lid ∈ unsel
        · simp [assignNamesFrom, selectedIds, h1, h2, ih k]
        · have hsel : selectedIds ((lid, oids) :: tl) unvis unsel =
              oids ++ selectedIds tl unvis unsel := by
            simp [selectedIds, h1, h2]
          rw [assignNamesFrom, if_neg h1, if_neg h2, hsel, List.length_append,
            Nat.add_comm oids.length (selectedIds tl unvis unsel).length,
            ← List.range'_append_1 k oids.length (selectedIds tl unvis unsel).length,
            List.zip_append (by simp), assignObjects_eq_zip oids k, ih (k + oids.length)]

/-- Entries of the inner loop carry ids of the processed list. -/
theorem mem_assignObjects (oids : List String) :
    ∀ (k : ℕ) (p : ℕ × String), p ∈ assignObjects k oids → p.2 ∈ oids := by
  induction oids with
  | nil => intro k p hp; simp [assignObjects] at hp
  | cons hd tl ih =>
      intro k p hp
      rcases List.mem_cons.mp hp with heq | htl
      · rw [heq]
        simp
      · exact List.mem_cons_of_mem _ (ih (k + 1) p htl)

/-- Every recorded entry stems from a kept layer containing the id. -/
theorem mem_assignNamesFrom (unvis unsel : List String) :
    ∀ (layers : List (String × List String)) (k : ℕ) (p : ℕ × String),
      p ∈ assignNamesFrom k unvis unsel layers →
      ∃ e ∈ layers, e.1 ∉ unvis ∧ e.1 ∉ unsel ∧ p.2 ∈ e.2 := by
  intro layers
  induction layers with
  | nil => intro k p hp; simp [assignNamesFrom] at hp
  | cons hd tl ih =>
      intro k p hp
      obtain ⟨lid, oids⟩ := hd
      by_cases h1 : lid ∈ unvis
      · rw [assignNamesFrom, if_pos h1] at hp
        obtain ⟨e, he, hrest⟩ := ih k p hp
        exact ⟨e, List.mem_cons_of_mem _ he, hrest⟩
      · by_cases h2 : lid ∈ unsel
        · rw [assignNamesFrom, if_neg h1, if_pos h2] at hp
          obtain ⟨e, he, hrest⟩ := ih k p hp
          exact ⟨e, List.mem_cons_of_mem _ he, hrest⟩
        · rw [assignNamesFrom, if_neg h1, if_neg h2] at hp
          rcases List.mem_append.mp hp with hleft | hright
          · exact ⟨(lid, oids), by simp, h1, h2, mem_assignObjects oids k p hleft⟩
          · obtain ⟨e, he, hrest⟩ := ih (k + oids.length) p hright
            exact ⟨e, List.mem_cons_of_mem _ he, hrest⟩

/-- C2: in one selection pass the objects of the layers that are neither
invisible nor unselectable receive distinct consecutive names starting at
1 (the recorded map is exactly the zip of the consecutive names with the
kept object ids in traversal order, so each name maps back to its object
id), and every recorded entry stems from a kept layer, so an object whose
layers are all invisible or unselectable is never assigned a name and can
never be reported as picked. -/
theorem selection_names_spec (layers : List (String × List String))
    (unvis unsel : List String) :
    handleSelectionNames layers unvis unsel =
      List.zip (List.range' 1 (selectedIds layers unvis unsel).length)
        (selectedIds layers unvis unsel) ∧
    (∀ p ∈ handleSelectionNames layers unvis unsel,
       ∃ e ∈ layers, e.1 ∉ unvis ∧ e.1 ∉ unsel ∧ p.2 ∈ e.2) :=
  ⟨assignNamesFrom_eq_zip unvis unsel layers 1,
   fun p hp => mem_assignNamesFrom unvis unsel layers 1 p hp⟩

/-- Witness for C2 on a concrete scene: one kept layer with two objects
and one invisible layer. -/
theorem selection_names_spec_witness :
    (handleSelectionNames [("main", ["a", "b"]), ("hidden", ["c"])] ["hidden"] [] =
      List.zip
        (List.range' 1
          (selectedIds [("main", ["a", "b"]), ("hidden", ["c"])] ["hidden"] []).length)
        (selectedIds [("main", ["a", "b"]), ("hidden", ["c"])] ["hidden"] [])) ∧
    (∃ e ∈ [("main", ["a", "b"]), ("hidden", ["c"])],
       e.1 ∉ ["hidden"] ∧ e.1 ∉ ([] : List String) ∧ (1, "a").2 ∈ e.2) :=
  ⟨(selection_names_spec [("main", ["a", "b"]), ("hidden", ["c"])] ["hidden"] []).1,
   (selection_names_spec [("main", ["a", "b"]), ("hidden", ["c"])] ["hidden"] []).2
     (1, "a") (by decide)⟩

/-- The epsilon of the shape transform guards in applyPendingShapeTransform
(1e-9 in the source). -/
def eps9 : α := 1 / 10 ^ 9

/-- The epsilon of the identity quaternion test (1e-6 in the source). -/
def eps6 : α := 1 / 10 ^ 6

/-- The identity quaternion test of the anonymous helper in the builder
implementation file. -/
def isIdentityQuaternion (q : Quaternion α) : Prop :=
  |q.x| < eps6 ∧ |q.y| < eps6 ∧ |q.z| < eps6 ∧ |abs q.w - 1| < eps6

instance (q : Quaternion α) : Decidable (isIdentityQuaternion q) := by
  unfold isIdentityQuaternion
  infer_instance

/-- ObjectBuilder state, from object_builder.h: the object under
construction, the pending info text and text color, and the pending per
shape transform. The pending texture queue and the legacy pending
transform list are not modeled: none of the operations considered here
touches them, so they stay empty and applyPendingTextures adds nothing. -/
structure ObjectBuilder (α : Type) where
  object : Object α
  info_text : String
  text_color : Vec3 α
  has_text_color : Bool
  next_shape_position : Vec3 α
  next_shape_orientation : Quaternion α
  next_shape_scale : Vec3 α
  deriving DecidableEq, Repr

namespace ObjectBuilder

/-- ObjectBuilder constructor and the static begin: a fresh object with
the id, the default text color and default pending transforms. -/
def begin (oid : String) : ObjectBuilder α :=
  ⟨Object.new oid, "", ⟨2 / 10, 2 / 10, 2 / 10⟩, false,
   ⟨0, 0, 0⟩, Quaternion.one, ⟨1, 1, 1⟩⟩

/-- applyPendingShapeTransform: scale, then rotate, then translate, each
applied only when the pending value differs from the neutral one by more
than the epsilon. -/
def applyPendingShapeTransform (b : ObjectBuilder α) (s : Shape α) : Shape α :=
  let s1 :=
    if |b.next_shape_scale.x - 1| > eps9 ∨ |b.next_shape_scale.y - 1| > eps9 ∨
        |b.next_shape_scale.z - 1| > eps9
    then s.scale b.next_shape_scale.x b.next_shape_scale.y b.next_shape_scale.z
    else s
  let s2 :=
    if isIdentityQuaternion b.next_shape_orientation then s1
    else s1.rotate b.next_shape_orientation
  if |b.next_shape_position.x| > eps9 ∨ |b.next_shape_position.y| > eps9 ∨
      |b.next_shape_position.z| > eps9
  then s2.move b.next_shape_position
  else s2

/-- resetPendingShapeTransform: restore the neutral pending transform. -/
def resetPendingShapeTransform (b : ObjectBuilder α) : ObjectBuilder α :=
  { b with next_shape_position := ⟨0, 0, 0⟩,
           next_shape_orientation := Quaternion.one,
           next_shape_scale := ⟨1, 1, 1⟩ }

/-- build: textures are applied (none are pending here), then the info
text is applied when non empty, with the chosen or the default text
color. -/
def build (b : ObjectBuilder α) : Object α :=
  if b.info_text = "" then b.object
  else if b.has_text_color then b.object.setInfo b.info_text b.text_color
  else b.object.setInfo b.info_text Object.defaultTextColor

end ObjectBuilder

/-- Builder calls considered by the claim: a geometric primitive call,
abstracted by the list of shapes its generator produces (each primitive
forwards those shapes through applyPendingShapeTransform and addShape and
then resets the pending transform), and withInfo. -/
inductive BuildOp (α : Type) where
  | prim (shapes : List (Shape α))
  | withInfo (s : String)

/-- Apply one builder call, mirroring the primitive bodies of the builder
implementation file. -/
def applyBuildOp (b : ObjectBuilder α) : BuildOp α → ObjectBuilder α
  | BuildOp.prim shapes =>
      let newObject :=
        shapes.foldl (fun o s => o.addShape (b.applyPendingShapeTransform s)) b.object
      let b1 := { b with object := newObject }
      b1.resetPendingShapeTransform
  | BuildOp.withInfo s => { b with info_text := s }

/-- The shapes contributed by one builder call. -/
def buildOpShapes : BuildOp α → List (Shape α)
  | BuildOp.prim shapes => shapes
  | BuildOp.withInfo _ => []

/-- The argument of the last withInfo call, or the empty string. -/
def lastInfoText (ops : List (BuildOp α)) : String :=
  ops.foldl
    (fun acc op =>
      match op with
      | BuildOp.withInfo s => s
      | _ => acc) ""

/-- The pending per shape transform of a builder is neutral. -/
def pendingNeutral (b : ObjectBuilder α) : Prop :=
  b.next_shape_position = ⟨0, 0, 0⟩ ∧ b.next_shape_orientation = Quaternion.one ∧
    b.next_shape_scale = ⟨1, 1, 1⟩

/-- With a neutral pending transform, applyPendingShapeTransform changes
nothing: all three epsilon guards reject. -/
theorem applyPendingShapeTransform_neutral (b : ObjectBuilder α)
    (h : pendingNeutral b) (s : Shape α) : b.applyPendingShapeTransform s = s := by
  obtain ⟨hp, ho, hs⟩ := h
  have he9 : (0 : α) < eps9 := by
    unfold eps9
    positivity
  have he6 : (0 : α) < eps6 := by
    unfold eps6
    positivity
  unfold ObjectBuilder.applyPendingShapeTransform
  rw [hp, ho, hs]
  have hguard : ¬ (|(1 : α) - 1| > eps9 ∨ |(1 : α) - 1| > eps9 ∨ |(1 : α) - 1| > eps9) := by
    simp only [sub_self, abs_zero]
    push_neg
    exact ⟨le_of_lt he9, le_of_lt he9, le_of_lt he9⟩
  have hzero : ¬ (|(0 : α)| > eps9 ∨ |(0 : α)| > eps9 ∨ |(0 : α)| > eps9) := by
    simp only [abs_zero]
    push_neg
    exact ⟨le_of_lt he9, le_of_lt he9, le_of_lt he9⟩
  have hid : isIdentityQuaternion (Quaternion.one : Quaternion α) := by
    unfold isIdentityQuaternion Quaternion.one
    simp only [abs_zero, abs_one, sub_self]
    exact ⟨he6, he6, he6, he6⟩
  simp only [if_neg hguard, if_pos hid, if_neg hzero]

/-- Folding addShape over an editable object appends the shapes. -/
theorem foldl_addShape_of_editable (ss : List (Shape α)) :
    ∀ o : Object α, o.editable = true →
      ss.foldl (fun o s => o.addShape s) o = { o with shapes := o.shapes ++ ss } := by
  induction ss with
  | nil =>
      intro o _
      obtain ⟨p, q, e, i, inf, d, tc, sh⟩ := o
      simp
  | cons hd tl ih =>
      intro o h
      rw [List.foldl_cons]
      have hadd : o.addShape hd = { o with shapes := o.shapes ++ [hd] } := by
        unfold Object.addShape
        rw [if_pos h]
      rw [hadd, ih _ (by rw [show ({ o with shapes := o.shapes ++ [hd] } :
        Object α).editable = o.editable from rfl]; exact h)]
      simp

/-- The builder invariant along the modeled calls: editable object with
the requested id as id and info, and a neutral pending transform. -/
def builderInv (oid : String) (b : ObjectBuilder α) : Prop :=
  b.object.editable = true ∧ b.object.id = oid ∧ b.object.info = oid ∧ pendingNeutral b

/-- Applying the builder calls preserves the invariant, appends the
primitive shapes in order and tracks the last info text. -/
theorem foldl_applyBuildOp_spec (oid : String) (ops : List (BuildOp α)) :
    ∀ b : ObjectBuilder α, builderInv oid b →
      builderInv oid (ops.foldl applyBuildOp b) ∧
      (ops.foldl applyBuildOp b).object.shapes =
        b.object.shapes ++ ops.flatMap buildOpShapes ∧
      (ops.foldl applyBuildOp b).info_text =
        ops.foldl
          (fun acc op =>
            match op with
            | BuildOp.withInfo s => s
            | _ => acc) b.info_text := by
  induction ops with
  | nil =>
      intro b hb
      refine ⟨hb, ?_, rfl⟩
      simp
  | cons op rest ih =>
      intro b hb
      obtain ⟨hed, hid, hinfo, hpend⟩ := hb
      cases op with
      | prim shapes =>
          have htr : ∀ s, b.applyPendingShapeTransform s = s :=
            applyPendingShapeTransform_neutral b hpend
          have hfold : shapes.foldl (fun o s => o.addShape (b.applyPendingShapeTransform s))
              b.object = { b.object with shapes := b.object.shapes ++ shapes } := by
            have : (fun (o : Object α) (s : Shape α) =>
                o.addShape (b.applyPendingShapeTransform s)) =
                fun (o : Object α) (s : Shape α) => o.addShape s := by
              funext o s
              rw [htr s]
            rw [this]
            exact foldl_addShape_of_editable shapes b.object hed
          have hb1 : applyBuildOp b (BuildOp.prim shapes) =
              ObjectBuilder.mk { b.object with shapes := b.object.shapes ++ shapes }
                b.info_text b.text_color b.has_text_color
                ⟨0, 0, 0⟩ Quaternion.one ⟨1, 1, 1⟩ := by
            simp only [applyBuildOp, ObjectBuilder.resetPendingShapeTransform]
            rw [hfold]
          rw [List.foldl_cons, hb1]
          have hinv2 : builderInv oid
              (ObjectBuilder.mk { b.object with shapes := b.object.shapes ++ shapes }
                b.info_text b.text_color b.has_text_color
                ⟨0, 0, 0⟩ Quaternion.one ⟨1, 1, 1⟩ : ObjectBuilder α) :=
            ⟨hed, hid, hinfo, rfl, rfl, rfl⟩
          obtain ⟨ih1, ih2, ih3⟩ := ih _ hinv2
          refine ⟨ih1, ?_, ih3⟩
          rw [ih2]
          simp [buildOpShapes]
      | withInfo s =>
          rw [List.foldl_cons]
          have hb1 : applyBuildOp b (BuildOp.withInfo s) = { b with info_text := s } := by
            simp only [applyBuildOp]
          rw [hb1]
          exact ih _ ⟨hed, hid, hinfo, hpend⟩

/-- C8: for every id and sequence of primitive and withInfo calls, the
built object is editable, has the requested id, carries exactly the
shapes of the primitive calls in call order, and its info is the argument
of the last withInfo call when that is non empty and the id otherwise. -/
theorem objectBuilder_build_spec (oid : String) (ops : List (BuildOp α)) :
    ((ops.foldl applyBuildOp (ObjectBuilder.begin oid)).build).editable = true ∧
    ((ops.foldl applyBuildOp (ObjectBuilder.begin oid)).build).id = oid ∧
    ((ops.foldl applyBuildOp (ObjectBuilder.begin oid)).build).shapes =
      ops.flatMap buildOpShapes ∧
    ((ops.foldl applyBuildOp (ObjectBuilder.begin oid)).build).info =
      (if lastInfoText ops = "" then oid else lastInfoText ops) := by
  have hbegin : builderInv oid (ObjectBuilder.begin oid : ObjectBuilder α) :=
    ⟨rfl, rfl, rfl, rfl, rfl, rfl⟩
  obtain ⟨⟨hed, hid, hinfo, _⟩, hshapes, hinfotext⟩ :=
    foldl_applyBuildOp_spec oid ops (ObjectBuilder.begin oid) hbegin
  have hlast : (ops.foldl applyBuildOp (ObjectBuilder.begin oid)).info_text =
      lastInfoText ops := hinfotext
  set bf := ops.foldl applyBuildOp (ObjectBuilder.begin (α := α) oid) with hbf
  have hsetInfo : ∀ (i : String) (c : Vec3 α),
      (bf.object.setInfo i c).editable = bf.object.editable ∧
      (bf.object.setInfo i c).id = bf.object.id ∧
      (bf.object.setInfo i c).shapes = bf.object.shapes ∧
      (bf.object.setInfo i c).info = i := by
    intro i c
    unfold Object.setInfo
    rw [if_pos hed]
    exact ⟨rfl, rfl, rfl, rfl⟩
  unfold ObjectBuilder.build
  rw [hlast]
  by_cases hl : lastInfoText ops = ""
  · rw [if_pos hl, if_pos hl]
    have : bf.object.shapes = (ObjectBuilder.begin (α := α) oid).object.shapes ++
        ops.flatMap buildOpShapes := hshapes
    refine ⟨hed, hid, ?_, hinfo⟩
    rw [this]
    rfl
  · rw [if_neg hl, if_neg hl]
    by_cases hc : bf.has_text_color
    · rw [if_pos hc]
      obtain ⟨h1, h2, h3, h4⟩ := hsetInfo (lastInfoText ops) bf.text_color
      refine ⟨by rw [h1]; exact hed, by rw [h2]; exact hid, ?_, h4⟩
      rw [h3, hshapes]
      rfl
    · rw [if_neg hc]
      obtain ⟨h1, h2, h3, h4⟩ := hsetInfo (lastInfoText ops) Object.defaultTextColor
      refine ⟨by rw [h1]; exact hed, by rw [h2]; exact hid, ?_, h4⟩
      rw [h3, hshapes]
      rfl

/-- Witness for C8 on a concrete call sequence over the rationals: one
primitive with two shapes, an overwritten info, a second primitive. -/
theorem objectBuilder_build_spec_witness :
    (((([BuildOp.prim [Shape.make ShapeType.Lines 1 1, Shape.make ShapeType.Polygon 1 (1 / 10)],
         BuildOp.withInfo "old", BuildOp.withInfo "final",
         BuildOp.prim [Shape.make ShapeType.Loop 2 1]] : List (BuildOp ℚ)).foldl
           applyBuildOp (ObjectBuilder.begin "obj")).build).shapes =
      ([BuildOp.prim [Shape.make ShapeType.Lines 1 1, Shape.make ShapeType.Polygon 1 (1 / 10)],
        BuildOp.withInfo "old", BuildOp.withInfo "final",
        BuildOp.prim [Shape.make ShapeType.Loop 2 1]] : List (BuildOp ℚ)).flatMap
          buildOpShapes) ∧
    (((([BuildOp.prim [Shape.make ShapeType.Lines 1 1, Shape.make ShapeType.Polygon 1 (1 / 10)],
         BuildOp.withInfo "old", BuildOp.withInfo "final",
         BuildOp.prim [Shape.make ShapeType.Loop 2 1]] : List (BuildOp ℚ)).foldl
           applyBuildOp (ObjectBuilder.begin "obj")).build).info =
      (if lastInfoText ([BuildOp.prim [Shape.make ShapeType.Lines 1 1,
              Shape.make ShapeType.Polygon 1 (1 / 10)],
            BuildOp.withInfo "old", BuildOp.withInfo "final",
            BuildOp.prim [Shape.make ShapeType.Loop 2 1]] : List (BuildOp ℚ)) = ""
       then "obj"
       else lastInfoText ([BuildOp.prim [Shape.make ShapeType.Lines 1 1,
              Shape.make ShapeType.Polygon 1 (1 / 10)],
            BuildOp.withInfo "old", BuildOp.withInfo "final",
            BuildOp.prim [Shape.make ShapeType.Loop 2 1]] : List (BuildOp ℚ)))) :=
  ⟨(objectBuilder_build_spec "obj" _).2.2.1, (objectBuilder_build_spec "obj" _).2.2.2⟩

/-- One sphere vertex of generateSphere: latitude row i (phi from 0 to pi)
and longitude column j (theta from 0 to 2 pi). The trigonometric functions
and pi are parameters of the embedding; the claims constrain them only by
the Pythagorean identity. The C++ vertices array holds exactly these
values at the indices the generator reads. -/
def sphereVertex (sinF cosF : α → α) (piV radius : α) (segments : ℕ) (i j : ℕ) : Vec3 α :=
  ⟨radius * sinF (piV * (i : α) / (segments : α)) *
     cosF (2 * piV * (j : α) / (segments : α)),
   radius * cosF (piV * (i : α) / (segments : α)),
   radius * sinF (piV * (i : α) / (segments : α)) *
     sinF (2 * piV * (j : α) / (segments : α))⟩

/-- The wireframe shapes of generateSphere: in simple wire mode the
meridian segments (outer loop over j, inner over i) followed by the
parallel segments (i from 1 to segments - 1), otherwise the three great
circle loops in the XY, YZ and XZ planes in source order. -/
def sphereWireShapes (sinF cosF : α → α) (piV radius : α) (simple_wire : Bool)
    (segments : ℕ) (edge_color : Vec3 α) : List (Shape α) :=
  if simple_wire then
    ((List.range segments).flatMap fun j =>
      (List.range segments).map fun i =>
        (Shape.make ShapeType.Lines 1 1).setPointsWithColor
          [sphereVertex sinF cosF piV radius segments i j,
           sphereVertex sinF cosF piV radius segments (i + 1) j] edge_color) ++
    ((List.range (segments - 1)).flatMap fun i0 =>
      (List.range segments).map fun j =>
        (Shape.make ShapeType.Lines 1 1).setPointsWithColor
          [sphereVertex sinF cosF piV radius segments (i0 + 1) j,
           sphereVertex sinF cosF piV radius segments (i0 + 1) ((j + 1) % segments)]
          edge_color)
  else
    [(Shape.make ShapeType.Loop 1 1).setPointsWithColor
       ((List.range (segments * 2 + 1)).map fun i =>
         ⟨radius * cosF (2 * piV * (i : α) / ((segments * 2 : ℕ) : α)),
          radius * sinF (2 * piV * (i : α) / ((segments * 2 : ℕ) : α)), 0⟩) edge_color,
     (Shape.make ShapeType.Loop 1 1).setPointsWithColor
       ((List.range (segments * 2 + 1)).map fun i =>
         ⟨0, radius * cosF (2 * piV * (i : α) / ((segments * 2 : ℕ) : α)),
          radius * sinF (2 * piV * (i : α) / ((segments * 2 : ℕ) : α))⟩) edge_color,
     (Shape.make ShapeType.Loop 1 1).setPointsWithColor
       ((List.range (segments + 1)).map fun i =>
         ⟨radius * cosF (2 * piV * (i : α) / (segments : α)), 0,
          radius * sinF (2 * piV * (i : α) / (segments : α))⟩) edge_color]

/-- The bottom cap triangles of generateSphere: last vertex row joined to
the south pole (0, -radius, 0). -/
def sphereCapShapes (sinF cosF : α → α) (piV radius : α) (segments : ℕ)
    (transparency : α) (face_color : Vec3 α) : List (Shape α) :=
  (List.range segments).map fun j =>
    (Shape.make ShapeType.Polygon 1 transparency).setPointsWithColor
      [sphereVertex sinF cosF piV radius segments (segments - 1) j,
       sphereVertex sinF cosF piV radius segments (segments - 1) ((j + 1) % segments),
       ⟨0, -radius, 0⟩] face_color

/-- The quad faces of generateSphere: rows 0 to segments - 2 joined to the
next row. -/
def sphereQuadShapes (sinF cosF : α → α) (piV radius : α) (segments : ℕ)
    (transparency : α) (face_color : Vec3 α) : List (Shape α) :=
  (List.range (segments - 1)).flatMap fun i =>
    (List.range segments).map fun j =>
      (Shape.make ShapeType.Polygon 1 transparency).setPointsWithColor
        [sphereVertex sinF cosF piV radius segments i j,
         sphereVertex sinF cosF piV radius segments i ((j + 1) % segments),
         sphereVertex sinF cosF piV radius segments (i + 1) ((j + 1) % segments),
         sphereVertex sinF cosF piV radius segments (i + 1) j] face_color

/-- generateSphere from the utils implementation: transparency 0.1 when
transparent, scaled face, edge and text colors, an object whose info is
its id, and the wire, cap and quad shapes added in source order. -/
def generateSphere (sinF cosF : α → α) (piV : α) (id : String) (color : Vec3 α)
    (radius : α) (transparent simple_wire : Bool) (segments : ℕ) : Object α :=
  let transparency : α := if transparent then 1 / 10 else 1
  let face_color := color.scale (9 / 10)
  let edge_color := color.scale (1 / 2)
  let text_color := color.scale (3 / 4)
  let sphere_obj := (Object.new id).setInfo id text_color
  ((sphereWireShapes sinF cosF piV radius simple_wire segments edge_color ++
    sphereCapShapes sinF cosF piV radius segments transparency face_color ++
    sphereQuadShapes sinF cosF piV radius segments transparency face_color).foldl
    (fun o s => o.addShape s) sphere_obj)

/-- Every sphere vertex has squared norm radius squared, given the
Pythagorean identity. -/
theorem sphereVertex_normSq (sinF cosF : α → α) (piV radius : α) (segments : ℕ)
    (hsc : ∀ t, sinF t ^ 2 + cosF t ^ 2 = 1) (i j : ℕ) :
    Vec3.normSq (sphereVertex sinF cosF piV radius segments i j) = radius ^ 2 := by
  unfold sphereVertex Vec3.normSq
  have h1 := hsc (piV * (i : α) / (segments : α))
  have h2 := hsc (2 * piV * (j : α) / (segments : α))
  simp only
  linear_combination (radius ^ 2 * sinF (piV * (i : α) / (segments : α)) ^ 2) * h2 +
    radius ^ 2 * h1

/-- A point of the XY great circle has squared norm radius squared. -/
theorem circleXY_normSq (sinF cosF : α → α) (radius : α)
    (hsc : ∀ t, sinF t ^ 2 + cosF t ^ 2 = 1) (t : α) :
    Vec3.normSq (⟨radius * cosF t, radius * sinF t, 0⟩ : Vec3 α) = radius ^ 2 := by
  unfold Vec3.normSq
  simp only
  linear_combination radius ^ 2 * hsc t

/-- A point of the YZ great circle has squared norm radius squared. -/
theorem circleYZ_normSq (sinF cosF : α → α) (radius : α)
    (hsc : ∀ t, sinF t ^ 2 + cosF t ^ 2 = 1) (t : α) :
    Vec3.normSq (⟨0, radius * cosF t, radius * sinF t⟩ : Vec3 α) = radius ^ 2 := by
  unfold Vec3.normSq
  simp only
  linear_combination radius ^ 2 * hsc t

/-- A point of the XZ great circle has squared norm radius squared. -/
theorem circleXZ_normSq (sinF cosF : α → α) (radius : α)
    (hsc : ∀ t, sinF t ^ 2 + cosF t ^ 2 = 1) (t : α) :
    Vec3.normSq (⟨radius * cosF t, 0, radius * sinF t⟩ : Vec3 α) = radius ^ 2 := by
  unfold Vec3.normSq
  simp only
  linear_combination radius ^ 2 * hsc t

/-- The south pole has squared norm radius squared. -/
theorem pole_normSq (radius : α) :
    Vec3.normSq (⟨0, -radius, 0⟩ : Vec3 α) = radius ^ 2 := by
  unfold Vec3.normSq
  simp only
  ring

/-- The point buffer of a freshly built shape is the one passed to
setPointsWithColor. -/
theorem make_setPoints_points (t : ShapeType) (w tr : α) (pts : List (Vec3 α))
    (c : Vec3 α) : ((Shape.make t w tr).setPointsWithColor pts c).points = pts := by
  simp [Shape.make, Shape.setPointsWithColor]

/-- The shapes of generateSphere are exactly the wire, cap and quad lists
in order. -/
theorem generateSphere_shapes (sinF cosF : α → α) (piV : α) (id : String)
    (color : Vec3 α) (radius : α) (transparent simple_wire : Bool) (segments : ℕ) :
    (generateSphere sinF cosF piV id color radius transparent simple_wire segments).shapes =
      sphereWireShapes sinF cosF piV radius simple_wire segments (color.scale (1 / 2)) ++
      sphereCapShapes sinF cosF piV radius segments
        (if transparent then 1 / 10 else 1) (color.scale (9 / 10)) ++
      sphereQuadShapes sinF cosF piV radius segments
        (if transparent then 1 / 10 else 1) (color.scale (9 / 10)) := by
  unfold generateSphere
  rw [foldl_addShape_of_editable _ _ rfl]
  have hobj : ((Object.new id).setInfo id (color.scale (3 / 4)) : Object α).shapes = [] := rfl
  simp [hobj, List.append_assoc]

/-- C7: with trigonometric functions satisfying the Pythagorean identity,
a positive radius and at least one segment, every point of every shape of
generateSphere has squared Euclidean norm equal to radius squared, that
is, lies at distance exactly radius from the origin. -/
theorem generateSphere_points_on_sphere (sinF cosF : α → α) (piV : α)
    (hsc : ∀ t, sinF t ^ 2 + cosF t ^ 2 = 1) (id : String) (color : Vec3 α)
    (radius : α) (hr : 0 < radius) (transparent simple_wire : Bool)
    (segments : ℕ) (hs : 1 ≤ segments) :
    ∀ sh ∈ (generateSphere sinF cosF piV id color radius transparent
        simple_wire segments).shapes,
      ∀ p ∈ sh.points, Vec3.normSq p = radius ^ 2 := by
  intro sh hsh p hp
  rw [generateSphere_shapes] at hsh
  rcases List.mem_append.mp hsh with hwc | hquad
  · rcases List.mem_append.mp hwc with hwire | hcap
    · unfold sphereWireShapes at hwire
      cases simple_wire with
      | true =>
          rw [if_pos rfl] at hwire
          rcases List.mem_append.mp hwire with hmer | hpar
          · simp only [List.mem_flatMap, List.mem_map, List.mem_range] at hmer
            obtain ⟨j, _, i, _, hsh1⟩ := hmer
            rw [← hsh1, make_setPoints_points] at hp
            rcases List.mem_cons.mp hp with h1 | h1
            · rw [h1]
              exact sphereVertex_normSq sinF cosF piV radius segments hsc i j
            · rcases List.mem_cons.mp h1 with h2 | h2
              · rw [h2]
                exact sphereVertex_normSq sinF cosF piV radius segments hsc (i + 1) j
              · simp at h2
          · simp only [List.mem_flatMap, List.mem_map, List.mem_range] at hpar
            obtain ⟨i0, _, j, _, hsh1⟩ := hpar
            rw [← hsh1, make_setPoints_points] at hp
            rcases List.mem_cons.mp hp with h1 | h1
            · rw [h1]
              exact sphereVertex_normSq sinF cosF piV radius segments hsc (i0 + 1) j
            · rcases List.mem_cons.mp h1 with h2 | h2
              · rw [h2]
                exact sphereVertex_normSq sinF cosF piV radius segments hsc (i0 + 1)
                  ((j + 1) % segments)
              · simp at h2
      | false =>
          rw [if_neg (by simp)] at hwire
          rcases List.mem_cons.mp hwire with h1 | h1
          · rw [h1, make_setPoints_points] at hp
            simp only [List.mem_map, List.mem_range] at hp
            obtain ⟨i, _, hpeq⟩ := hp
            rw [← hpeq]
            exact circleXY_normSq sinF cosF radius hsc _
          · rcases List.mem_cons.mp h1 with h2 | h2
            · rw [h2, make_setPoints_points] at hp
              simp only [List.mem_map, List.mem_range] at hp
              obtain ⟨i, _, hpeq⟩ := hp
              rw [← hpeq]
              exact circleYZ_normSq sinF cosF radius hsc _
            · rcases List.mem_cons.mp h2 with h3 | h3
              · rw [h3, make_setPoints_points] at hp
                simp only [List.mem_map, List.mem_range] at hp
                obtain ⟨i, _, hpeq⟩ := hp
                rw [← hpeq]
                exact circleXZ_normSq sinF cosF radius hsc _
              · simp at h3
    · unfold sphereCapShapes at hcap
      simp only [List.mem_map, List.mem_range] at hcap
      obtain ⟨j, _, hsh1⟩ := hcap
      rw [← hsh1, make_setPoints_points] at hp
      rcases List.mem_cons.mp hp with h1 | h1
      · rw [h1]
        exact sphereVertex_normSq sinF cosF piV radius segments hsc (segments - 1) j
      · rcases List.mem_cons.mp h1 with h2 | h2
        · rw [h2]
          exact sphereVertex_normSq sinF cosF piV radius segments hsc (segments - 1)
            ((j + 1) % segments)
        · rcases List.mem_cons.mp h2 with h3 | h3
          · rw [h3]
            exact pole_normSq radius
          · simp at h3
  · unfold sphereQuadShapes at hquad
    simp only [List.mem_flatMap, List.mem_map, List.mem_range] at hquad
    obtain ⟨i, _, j, _, hsh1⟩ := hquad
    rw [← hsh1, make_setPoints_points] at hp
    rcases List.mem_cons.mp hp with h1 | h1
    · rw [h1]
      exact sphereVertex_normSq sinF cosF piV radius segments hsc i j
    · rcases List.mem_cons.mp h1 with h2 | h2
      · rw [h2]
        exact sphereVertex_normSq sinF cosF piV radius segments hsc i ((j + 1) % segments)
      · rcases List.mem_cons.mp h2 with h3 | h3
        · rw [h3]
          exact sphereVertex_normSq sinF cosF piV radius segments hsc (i + 1)
            ((j + 1) % segments)
        · rcases List.mem_cons.mp h3 with h4 | h4
          · rw [h4]
            exact sphereVertex_normSq sinF cosF piV radius segments hsc (i + 1) j
          · simp at h4

/-- Witness for C7 over the rationals: constant zero sine and constant one
cosine satisfy the identity; the first meridian vertex of a unit sphere in
simple wire mode with one segment has squared norm one. -/
theorem generateSphere_points_on_sphere_witness :
    ((0 : ℚ) < 1 ∧ (1 : ℕ) ≤ 1) ∧
    Vec3.normSq (sphereVertex (fun _ => (0 : ℚ)) (fun _ => 1) 0 1 1 0 0) = (1 : ℚ) ^ 2 :=
  ⟨⟨by norm_num, le_refl 1⟩,
   generateSphere_points_on_sphere (fun _ => (0 : ℚ)) (fun _ => 1) 0
     (fun t => by norm_num) "s" ⟨0, 0, 0⟩ 1 (by norm_num) true true 1 (le_refl 1)
     ((Shape.make ShapeType.Lines 1 1).setPointsWithColor
       [sphereVertex (fun _ => (0 : ℚ)) (fun _ => 1) 0 1 1 0 0,
        sphereVertex (fun _ => (0 : ℚ)) (fun _ => 1) 0 1 1 1 0]
       (Vec3.scale ⟨0, 0, 0⟩ (1 / 2)))
     (by simp [generateSphere_shapes, sphereWireShapes, sphereCapShapes,
       sphereQuadShapes])
     (sphereVertex (fun _ => (0 : ℚ)) (fun _ => 1) 0 1 1 0 0)
     (by simp [make_setPoints_points])⟩

end OctoFlex
